import Mathlib

/-!
Shallow embedding of Smoothieware's step ticker (src/src/libs/StepTicker.cpp).

The C++ source drives step pulses for up to `num_motors` stepper motors from a
periodic timer interrupt (`TIMER0_IRQHandler`), converts planned motion blocks
into per-motor integration state (`copy_block`), deasserts step pins from a
second timer (`unstep_tick`), defers block-completion callbacks to a PendSV
handler (`PendSV_IRQHandler`) and registers motors (`register_motor`).

Modelling choices:
* `float` fields are modelled as rationals (`ℚ`): the verified properties are
  control-flow and counting properties whose statements are exact and do not
  depend on rounding of the arithmetic.
* the per-motor arrays (`tick_info`, the unstep bitset, the stepped pins of one
  tick) are modelled as lists indexed by the motor number;
* hardware register writes (`LPC_TIM*`, `SCB->ICSR`) are modelled as fields of
  the returned `TickEvents` record; the `SCB->ICSR` PendSV-set store becomes
  the boolean `pendsv_raised`;
* `current_tick`, a function-local `static` in the C++ source, is a state
  field, since it persists across invocations of the handler.
-/

namespace Smoothie

/-- Per-motor integration state, the `tick_info[m]` record of the source.
`float` fields are rationals. -/
structure TickInfo where
  steps_to_move : Nat
  steps_per_tick : ℚ
  counter : ℚ
  axis_ratio : ℚ
  acceleration_change : ℚ
  next_accel_event : Nat
  step_count : Nat
deriving DecidableEq, Inhabited

/-- The shared per-block fields copied out of the planned block
(`block_info` in the source). -/
structure BlockInfo where
  accelerate_until : Nat
  decelerate_after : Nat
  maximum_rate : ℚ
  deceleration_per_tick : ℚ
  total_move_ticks : Nat
deriving DecidableEq, Inhabited

/-- A planned motion block as read by `copy_block` (fields of `Block` that the
step ticker consumes). `steps` and `direction_bits` are per-motor. -/
structure Block where
  accelerate_until : Nat
  decelerate_after : Nat
  total_move_ticks : Nat
  initial_rate : ℚ
  maximum_rate : ℚ
  acceleration_per_tick : ℚ
  deceleration_per_tick : ℚ
  steps_event_count : Nat
  steps : List Nat
  direction_bits : List Bool
deriving DecidableEq, Inhabited

/-- The state of the step ticker: the per-motor `tick_info` array (its length
is `num_motors`), the copied `block_info`, the `move_issued` flag, the
single-slot `next_block` mailbox, the unstep bitset, the (static) tick
counter of `TIMER0_IRQHandler` and the atomic `do_move_finished` count. -/
structure State where
  frequency : ℚ
  tick_info : List TickInfo
  block_info : BlockInfo
  move_issued : Bool
  next_block : Option Block
  unstep : List Bool
  current_tick : Nat
  do_move_finished : Nat
deriving DecidableEq, Inhabited

/-- Observable effects of one invocation of the tick handler: which motors had
`step()` called (one flag per motor), the computed `still_moving`, whether the
unstep timer was (re)armed (`LPC_TIM1->TCR` writes), and whether the PendSV
interrupt was raised (`SCB->ICSR = 0x10000000`). -/
structure TickEvents where
  stepped : List Bool
  still_moving : Bool
  unstep_armed : Bool
  pendsv_raised : Bool
deriving DecidableEq, Inhabited

/-- Lines 151–167 of the source: add `acceleration_change` to
`steps_per_tick`, then, when `current_tick` equals `next_accel_event`, resolve
the phase transitions (end of acceleration, start of deceleration). -/
def phaseUpdate (bi : BlockInfo) (freq : ℚ) (ct : Nat) (t0 : TickInfo) : TickInfo :=
  let t1 := { t0 with steps_per_tick := t0.steps_per_tick + t0.acceleration_change }
  if ct = t1.next_accel_event then
    let t2 :=
      if ct = bi.accelerate_until then
        let t3 := { t1 with acceleration_change := 0 }
        if bi.decelerate_after < bi.total_move_ticks then
          let t4 := { t3 with next_accel_event := bi.decelerate_after }
          if ct ≠ bi.decelerate_after then
            { t4 with steps_per_tick := t4.axis_ratio * bi.maximum_rate / freq }
          else t4
        else t3
      else t1
    if ct = bi.decelerate_after then
      { t2 with acceleration_change := -bi.deceleration_per_tick * t2.axis_ratio }
    else t2
  else t1

/-- Lines 169–173 of the source: the rounding-error guard. If
`steps_per_tick ≤ 0`, force `counter = 1` and clamp `steps_per_tick` to 0. -/
def roundingGuard (t : TickInfo) : TickInfo :=
  if t.steps_per_tick ≤ 0 then { t with counter := 1, steps_per_tick := 0 } else t

/-- Lines 175–190 of the source: accumulate `counter`; when it reaches 1, emit
a step (the boolean), carry the residual fraction, count the step, and mark
the motor done when `step_count` reaches `steps_to_move`. -/
def stepPhase (t : TickInfo) : TickInfo × Bool :=
  if 1 ≤ t.counter + t.steps_per_tick then
    ({ t with counter := t.counter + t.steps_per_tick - 1,
              step_count := t.step_count + 1,
              steps_to_move := if t.step_count + 1 = t.steps_to_move then 0
                               else t.steps_to_move }, true)
  else
    ({ t with counter := t.counter + t.steps_per_tick }, false)

/-- The whole per-motor body of the tick loop (lines 147–190): inactive motors
(`steps_to_move = 0`) are skipped, active ones go through the phase update,
the rounding guard and the step accumulator. The boolean reports whether
`step()` was called on this motor this tick. -/
def tickMotor (bi : BlockInfo) (freq : ℚ) (ct : Nat) (t : TickInfo) : TickInfo × Bool :=
  if t.steps_to_move = 0 then (t, false)
  else stepPhase (roundingGuard (phaseUpdate bi freq ct t))

/-- The per-motor part of `copy_block` (lines 233–261): record
`steps_to_move`, and for motors with a nonzero step count rebuild the whole
integration state, classifying the starting phase of the block. -/
def copyMotor (b : Block) (freq : ℚ) (steps : Nat) (t : TickInfo) : TickInfo :=
  if steps = 0 then { t with steps_to_move := steps } else
  let inv : ℚ := 1 / (b.steps_event_count : ℚ)
  let aratio : ℚ := inv * (steps : ℚ)
  let base : TickInfo :=
    { steps_to_move := steps
      steps_per_tick := b.initial_rate * aratio / freq
      counter := 0
      axis_ratio := aratio
      step_count := 0
      next_accel_event := b.total_move_ticks + 1
      acceleration_change := 0 }
  let cls : TickInfo :=
    if b.accelerate_until ≠ 0 then
      { base with next_accel_event := b.accelerate_until
                  acceleration_change := b.acceleration_per_tick }
    else if b.decelerate_after = 0 then
      { base with acceleration_change := -b.deceleration_per_tick }
    else if b.decelerate_after ≠ b.total_move_ticks then
      { base with next_accel_event := b.decelerate_after }
    else base
  { cls with acceleration_change := cls.acceleration_change * aratio }

/-- Source function `StepTicker::copy_block` (lines 224–263): copy the shared block fields
into `block_info`, rebuild every motor's `tick_info`, set `move_issued`. -/
def copy_block (s : State) (b : Block) : State :=
  { s with
    block_info :=
      { accelerate_until := b.accelerate_until
        decelerate_after := b.decelerate_after
        maximum_rate := b.maximum_rate
        deceleration_per_tick := b.deceleration_per_tick
        total_move_ticks := b.total_move_ticks }
    tick_info := List.zipWith (copyMotor b s.frequency) b.steps s.tick_info
    move_issued := true }

/-- Modelled from the spec: the increment of the atomic block-finished count
`do_move_finished` is not in the provided source file (only its consumer,
`PendSV_IRQHandler`, which drains it, is). Spec §4.3 step 5: at block
completion the engine raises the deferred completion signal exactly once per
finished block. -/
def signalMoveFinished (c : Nat) : Nat := c + 1

/-- Source function `StepTicker::TIMER0_IRQHandler` (lines 133–221): one tick. If no move is
issued the handler returns at once. Otherwise it advances every motor,
computes `still_moving` from the motors active at entry, accumulates the
unstep bitset, re-arms the unstep timer when any bit is set, and on the tick
where no motor is still moving resets the tick counter, swaps in the pending
block from the mailbox (or idles), and raises PendSV. -/
def TIMER0_IRQHandler (s : State) : State × TickEvents :=
  if s.move_issued = false then
    (s, { stepped := List.replicate s.tick_info.length false
          still_moving := false
          unstep_armed := false
          pendsv_raised := false })
  else
    let ct := s.current_tick + 1
    let results := s.tick_info.map (fun t => tickMotor s.block_info s.frequency ct t)
    let newInfo := results.map Prod.fst
    let stepped := results.map Prod.snd
    let moving := s.tick_info.any (fun t => t.steps_to_move != 0)
    let unstep1 := List.zipWith (fun u b => u || b) s.unstep stepped
    let armed := unstep1.any id
    if moving then
      ({ s with current_tick := ct, tick_info := newInfo, unstep := unstep1 },
       { stepped := stepped, still_moving := true, unstep_armed := armed,
         pendsv_raised := false })
    else
      match s.next_block with
      | some b =>
          (copy_block
            { s with current_tick := 0, tick_info := newInfo, unstep := unstep1,
                     next_block := none,
                     do_move_finished := signalMoveFinished s.do_move_finished } b,
           { stepped := stepped, still_moving := false, unstep_armed := armed,
             pendsv_raised := true })
      | none =>
          ({ s with current_tick := 0, tick_info := newInfo, unstep := unstep1,
                    move_issued := false,
                    do_move_finished := signalMoveFinished s.do_move_finished },
           { stepped := stepped, still_moving := false, unstep_armed := armed,
             pendsv_raised := true })

/-- Source function `StepTicker::PendSV_IRQHandler` (lines 113–129): when the block-finished
count is positive, decrement it once and call the registered completion
callback `finished_fnc` when one is registered. The boolean result records
whether the callback was invoked. -/
def PendSV_IRQHandler (c : Nat) (registered : Bool) : Nat × Bool :=
  if 0 < c then (c - 1, registered) else (c, false)

/-- Source function `StepTicker::unstep_tick` (lines 85–93): call `unstep()` on every motor
whose bit is set in the unstep bitset (indices below `num_motors`), then
clear the whole bitset. The returned list holds the indices of the motors
whose `unstep()` was called. -/
def unstep_tick (s : State) : State × List Nat :=
  ((( { s with unstep := List.replicate s.unstep.length false } ) : State),
   (List.range s.tick_info.length).filter (fun i => s.unstep.getD i false))

/-- The motor registry state of `register_motor`: the `motor` table is
modelled as memory addressed by an unbounded index, so that a write past the
fixed-capacity table is expressible (an update at an index not below the
capacity). -/
structure RegState where
  num_motors : Nat
  motor : Nat → Option Nat

/-- Source function `StepTicker::register_motor` (lines 266–270): `motor[num_motors++] = m;
return num_motors - 1;` — unconditionally writes the handle at index
`num_motors`, increments the count and returns the old count. -/
def register_motor (s : RegState) (m : Nat) : RegState × Nat :=
  let n1 := s.num_motors + 1
  ({ num_motors := n1
     motor := fun i => if i = s.num_motors then some m else s.motor i }, n1 - 1)

/-- Iterate the tick handler `n` times, keeping only the state. -/
def runTicks (s : State) : Nat → State
  | 0 => s
  | n + 1 => runTicks (TIMER0_IRQHandler s).1 n

/-- Iterate the per-motor tick body over `n` consecutive ticks starting at
tick number `ct`. -/
def runMotor (bi : BlockInfo) (freq : ℚ) : Nat → Nat → TickInfo → TickInfo
  | _, 0, t => t
  | ct, n + 1, t => runMotor bi freq (ct + 1) n (tickMotor bi freq ct t).1

/-! Invariants used to prove step-count conservation -/

/-- Per-motor book-keeping invariant tying `steps_to_move` and `step_count`
to the commanded step count `n` of the current block: either the motor is
still active with its full command recorded and fewer steps emitted, or it
has been deactivated at exactly `n` emitted steps. -/
def MotorInv (n : Nat) (t : TickInfo) : Prop :=
  (t.steps_to_move = n ∧ t.step_count < n) ∨ (t.steps_to_move = 0 ∧ t.step_count = n)

/-- Whole-state invariant for a single-block run (empty mailbox): the
`tick_info` table has one entry per commanded motor and every motor with a
nonzero command satisfies `MotorInv`. -/
def StateInv (L : List Nat) (s : State) : Prop :=
  s.tick_info.length = L.length ∧ s.next_block = none ∧
    ∀ i, i < L.length → 0 < L.getD i 0 →
      MotorInv (L.getD i 0) (s.tick_info.getD i default)

/-! Concrete inputs used by the witnesses -/

/-- An idle ticker state: one registered motor, no move issued. -/
def c8state : State :=
  { frequency := 1, tick_info := [default], block_info := default,
    move_issued := false, next_block := none, unstep := [false],
    current_tick := 0, do_move_finished := 0 }

/-- A ticker state with two motors whose unstep bits are `[true, false]`. -/
def c9state : State :=
  { frequency := 1, tick_info := [default, default], block_info := default,
    move_issued := false, next_block := none, unstep := [true, false],
    current_tick := 0, do_move_finished := 0 }

/-- A ticker state on its finishing tick: a move is issued, every motor has
completed (`steps_to_move = 0`), the mailbox is empty. -/
def c2state : State :=
  { frequency := 1, tick_info := [default], block_info := default,
    move_issued := true, next_block := none, unstep := [false],
    current_tick := 5, do_move_finished := 2 }

/-- A motor registry whose fixed-capacity table (capacity 4) is already
full. -/
def c3full : RegState := { num_motors := 4, motor := fun _ => none }

/-- Shared block fields with an acceleration phase ending at tick 2 and a
deceleration phase starting at tick 5 of 10. -/
def c4bi : BlockInfo :=
  { accelerate_until := 2, decelerate_after := 5, maximum_rate := 3,
    deceleration_per_tick := 1, total_move_ticks := 10 }

/-- A motor accelerating towards the phase switch armed for tick 2. -/
def c4t : TickInfo :=
  { steps_to_move := 5, steps_per_tick := 1, counter := 0, axis_ratio := 1,
    acceleration_change := 2, next_accel_event := 2, step_count := 0 }

/-- A block with acceleration until tick 2, deceleration from tick 5 of 10,
reference step count 4 and 2 steps on motor 0. -/
def c5b : Block :=
  { accelerate_until := 2, decelerate_after := 5, total_move_ticks := 10,
    initial_rate := 4, maximum_rate := 8, acceleration_per_tick := 3,
    deceleration_per_tick := 2, steps_event_count := 4, steps := [2],
    direction_bits := [true] }

/-- A plateau motor exactly at stepping rate: its counter reaches 1 on the
next tick. -/
def c10t : TickInfo :=
  { steps_to_move := 3, steps_per_tick := 1, counter := 0, axis_ratio := 1,
    acceleration_change := 0, next_accel_event := 0, step_count := 0 }

/-- A decelerating motor whose rate has decayed to zero: from here on only
the rounding guard makes it step. -/
def c6t : TickInfo :=
  { steps_to_move := 5, steps_per_tick := 0, counter := 0, axis_ratio := 1,
    acceleration_change := -1, next_accel_event := 0, step_count := 2 }

/-- A 2-step pure-plateau block (no acceleration, no deceleration) over 3
ticks with reference step count 2. -/
def c1b : Block :=
  { accelerate_until := 0, decelerate_after := 3, total_move_ticks := 3,
    initial_rate := 1, maximum_rate := 1, acceleration_per_tick := 0,
    deceleration_per_tick := 0, steps_event_count := 2, steps := [2],
    direction_bits := [true] }

/-- A fresh single-motor ticker state (tick frequency 1) with an empty
mailbox, ready to receive a block. -/
def c1s0 : State :=
  { frequency := 1, tick_info := [default], block_info := default,
    move_issued := false, next_block := none, unstep := [false],
    current_tick := 0, do_move_finished := 0 }

/-- A pending block for the mailbox: one motor, 4 steps, pure plateau over 8
ticks. -/
def c7b : Block :=
  { accelerate_until := 0, decelerate_after := 8, total_move_ticks := 8,
    initial_rate := 2, maximum_rate := 2, acceleration_per_tick := 0,
    deceleration_per_tick := 0, steps_event_count := 4, steps := [4],
    direction_bits := [false] }

/-- A ticker state on the finishing tick of its current block, with `c7b`
pending in the mailbox. -/
def c7state : State :=
  { frequency := 1, tick_info := [default], block_info := default,
    move_issued := true, next_block := some c7b, unstep := [false],
    current_tick := 9, do_move_finished := 0 }

/-! Field-preservation facts about the per-motor tick body -/

theorem phaseUpdate_steps_to_move (bi : BlockInfo) (freq : ℚ) (ct : Nat) (t : TickInfo) :
    (phaseUpdate bi freq ct t).steps_to_move = t.steps_to_move := by
  simp only [phaseUpdate]; split_ifs <;> rfl

theorem phaseUpdate_step_count (bi : BlockInfo) (freq : ℚ) (ct : Nat) (t : TickInfo) :
    (phaseUpdate bi freq ct t).step_count = t.step_count := by
  simp only [phaseUpdate]; split_ifs <;> rfl

theorem phaseUpdate_counter (bi : BlockInfo) (freq : ℚ) (ct : Nat) (t : TickInfo) :
    (phaseUpdate bi freq ct t).counter = t.counter := by
  simp only [phaseUpdate]; split_ifs <;> rfl

theorem phaseUpdate_axis_ratio (bi : BlockInfo) (freq : ℚ) (ct : Nat) (t : TickInfo) :
    (phaseUpdate bi freq ct t).axis_ratio = t.axis_ratio := by
  simp only [phaseUpdate]; split_ifs <;> rfl

theorem roundingGuard_steps_to_move (t : TickInfo) :
    (roundingGuard t).steps_to_move = t.steps_to_move := by
  simp only [roundingGuard]; split_ifs <;> rfl

theorem roundingGuard_step_count (t : TickInfo) :
    (roundingGuard t).step_count = t.step_count := by
  simp only [roundingGuard]; split_ifs <;> rfl

theorem roundingGuard_axis_ratio (t : TickInfo) :
    (roundingGuard t).axis_ratio = t.axis_ratio := by
  simp only [roundingGuard]; split_ifs <;> rfl

theorem roundingGuard_acceleration_change (t : TickInfo) :
    (roundingGuard t).acceleration_change = t.acceleration_change := by
  simp only [roundingGuard]; split_ifs <;> rfl

theorem roundingGuard_next_accel_event (t : TickInfo) :
    (roundingGuard t).next_accel_event = t.next_accel_event := by
  simp only [roundingGuard]; split_ifs <;> rfl

theorem stepPhase_of_step {t : TickInfo} (h : 1 ≤ t.counter + t.steps_per_tick) :
    stepPhase t =
      ({ t with counter := t.counter + t.steps_per_tick - 1,
                step_count := t.step_count + 1,
                steps_to_move := if t.step_count + 1 = t.steps_to_move then 0
                                 else t.steps_to_move }, true) := by
  simp only [stepPhase, if_pos h]

theorem stepPhase_of_no_step {t : TickInfo} (h : ¬ 1 ≤ t.counter + t.steps_per_tick) :
    stepPhase t = ({ t with counter := t.counter + t.steps_per_tick }, false) := by
  simp only [stepPhase, if_neg h]

theorem tickMotor_inactive (bi : BlockInfo) (freq : ℚ) (ct : Nat) {t : TickInfo}
    (h : t.steps_to_move = 0) : tickMotor bi freq ct t = (t, false) := by
  simp only [tickMotor, if_pos h]

theorem tickMotor_active (bi : BlockInfo) (freq : ℚ) (ct : Nat) {t : TickInfo}
    (h : t.steps_to_move ≠ 0) :
    tickMotor bi freq ct t = stepPhase (roundingGuard (phaseUpdate bi freq ct t)) := by
  simp only [tickMotor, if_neg h]

/-! Branch facts about the tick handler -/

theorem TIMER0_not_issued {s : State} (h : s.move_issued = false) :
    TIMER0_IRQHandler s =
      (s, { stepped := List.replicate s.tick_info.length false, still_moving := false,
            unstep_armed := false, pendsv_raised := false }) := by
  unfold TIMER0_IRQHandler
  rw [if_pos h]

theorem TIMER0_tick_info_of_none {s : State} (h : s.move_issued = true)
    (hnb : s.next_block = none) :
    (TIMER0_IRQHandler s).1.tick_info =
      s.tick_info.map
        (fun t => (tickMotor s.block_info s.frequency (s.current_tick + 1) t).1) := by
  unfold TIMER0_IRQHandler
  rw [if_neg (by simp [h]), hnb]
  dsimp only
  split_ifs <;> simp [List.map_map, Function.comp]

theorem TIMER0_next_block_of_none {s : State} (hnb : s.next_block = none) :
    (TIMER0_IRQHandler s).1.next_block = none := by
  by_cases h : s.move_issued = false
  · rw [TIMER0_not_issued h]; exact hnb
  · unfold TIMER0_IRQHandler
    rw [if_neg h, hnb]
    dsimp only
    split_ifs <;> rfl

/-- Claim C8: whenever no block is active (`move_issued` is false), an
invocation of the tick handler returns with the whole state unchanged —
no motor stepped, no `tick_info`, `block_info`, counter or unstep state
modified, the unstep timer not re-armed and PendSV not raised. -/
theorem c8_idle_ticks_are_noops (s : State) (h : s.move_issued = false) :
    TIMER0_IRQHandler s =
      (s, { stepped := List.replicate s.tick_info.length false, still_moving := false,
            unstep_armed := false, pendsv_raised := false }) :=
  TIMER0_not_issued h

/-- Concrete instance of the C8 theorem: an idle state is left untouched by a
tick. -/
theorem c8_witness :
    c8state.move_issued = false ∧
      TIMER0_IRQHandler c8state =
        (c8state,
         { stepped := List.replicate c8state.tick_info.length false, still_moving := false,
           unstep_armed := false, pendsv_raised := false }) :=
  ⟨rfl, c8_idle_ticks_are_noops c8state rfl⟩

/-- Claim C9: on expiry of the unstep countdown, `unstep_tick` calls
`unstep()` exactly on the motors whose bits are set in the unstep set
(for every motor index below `num_motors`), and clears the whole set. -/
theorem c9_unstep_expiry_semantics (s : State) :
    (∀ i, i < s.tick_info.length →
       (i ∈ (unstep_tick s).2 ↔ s.unstep.getD i false = true)) ∧
    (∀ i, (unstep_tick s).1.unstep.getD i false = false) ∧
    (unstep_tick s).1.unstep.length = s.unstep.length := by
  refine ⟨?_, ?_, by simp [unstep_tick]⟩
  · intro i hi
    simp [unstep_tick, List.mem_filter, List.mem_range, hi]
  · intro i
    by_cases hi : i < s.unstep.length
    · rw [List.getD_eq_getElem _ _ (by simpa [unstep_tick] using hi)]
      simp [unstep_tick]
    · rw [List.getD_eq_default]
      simpa [unstep_tick] using hi

/-- Concrete instance of the C9 theorem: with bits 0 set and 1 clear, motor 0
is unstepped, motor 1 is not, and afterwards no bit is pending. -/
theorem c9_witness :
    (0 ∈ (unstep_tick c9state).2) ∧ ¬ (1 ∈ (unstep_tick c9state).2) ∧
      (unstep_tick c9state).1.unstep.getD 0 false = false := by
  refine ⟨((c9_unstep_expiry_semantics c9state).1 0 (by decide)).mpr (by decide), ?_, ?_⟩
  · intro hmem
    exact absurd (((c9_unstep_expiry_semantics c9state).1 1 (by decide)).mp hmem) (by decide)
  · exact (c9_unstep_expiry_semantics c9state).2.1 0

/-- Claim C2: on every tick at which all motors have finished (the computed
`still_moving` is false), and only on such ticks, the tick handler raises the
deferred completion signal (PendSV plus one increment of the block-finished
count); the deferred notifier runs the registered callback only when the
atomic block-finished count is positive and decrements that count exactly
once per invocation. -/
theorem c2_exactly_once_completion (s : State) (c : Nat) (registered : Bool) :
    ((TIMER0_IRQHandler s).2.pendsv_raised = true ↔
       (s.move_issued = true ∧ ∀ t ∈ s.tick_info, t.steps_to_move = 0)) ∧
    (s.move_issued = true → (∀ t ∈ s.tick_info, t.steps_to_move = 0) →
       (TIMER0_IRQHandler s).1.do_move_finished = s.do_move_finished + 1) ∧
    (0 < c → PendSV_IRQHandler c registered = (c - 1, registered)) ∧
    (c = 0 → PendSV_IRQHandler c registered = (c, false)) := by
  refine ⟨?_, ?_, fun hc => by simp [PendSV_IRQHandler, hc],
    fun hc => by simp [PendSV_IRQHandler, hc]⟩
  · by_cases h : s.move_issued = false
    · rw [TIMER0_not_issued h]
      simp [h]
    · unfold TIMER0_IRQHandler
      rw [if_neg h]
      dsimp only
      have h' : s.move_issued = true := by revert h; cases s.move_issued <;> simp
      by_cases hmv : (s.tick_info.any fun t => t.steps_to_move != 0) = true
      · rw [if_pos hmv]
        simp only [List.any_eq_true, bne_iff_ne, ne_eq] at hmv
        obtain ⟨t0, ht0, hne⟩ := hmv
        constructor
        · intro hfalse; exact absurd hfalse (by simp)
        · rintro ⟨-, hall⟩; exact absurd (hall t0 ht0) hne
      · rw [if_neg hmv]
        have hall : ∀ t ∈ s.tick_info, t.steps_to_move = 0 := by
          simp only [List.any_eq_true, bne_iff_ne, ne_eq, not_exists, not_and,
            not_not] at hmv
          exact hmv
        cases hnb : s.next_block <;> dsimp only <;> simpa [h'] using hall
  · intro h' hall
    unfold TIMER0_IRQHandler
    rw [if_neg (by simp [h'])]
    dsimp only
    have hmv : ¬ ((s.tick_info.any fun t => t.steps_to_move != 0) = true) := by
      simp only [List.any_eq_true, bne_iff_ne, ne_eq, not_exists, not_and, not_not]
      exact hall
    rw [if_neg hmv]
    cases hnb : s.next_block <;> dsimp only <;> simp [copy_block, signalMoveFinished]

/-- Concrete instance of the C2 theorem: on the finishing tick PendSV is
raised and the block-finished count goes from 2 to 3; the notifier drains a
positive count by one with one callback, and does nothing at zero. -/
theorem c2_witness :
    (TIMER0_IRQHandler c2state).2.pendsv_raised = true ∧
    (TIMER0_IRQHandler c2state).1.do_move_finished = 3 ∧
    PendSV_IRQHandler 2 true = (1, true) ∧
    PendSV_IRQHandler 0 true = (0, false) := by
  refine ⟨?_, ?_, ?_, ?_⟩
  · exact (c2_exactly_once_completion c2state 2 true).1.mpr ⟨rfl, by decide⟩
  · exact (c2_exactly_once_completion c2state 2 true).2.1 rfl (by decide)
  · exact (c2_exactly_once_completion c2state 2 true).2.2.1 (by decide)
  · exact (c2_exactly_once_completion c2state 0 true).2.2.2 rfl

/-- Claim C3 counterexample: the claim says a `register_motor` call made when
the table is already full (num_motors equal to the capacity) fails rather
than writing past the table. In the source, `motor[num_motors++] = m` has no
capacity check: with capacity 4 and a full table, the call writes the handle
at index 4 — an index not below the capacity — so the claim is false. -/
theorem c3_counterexample :
    ¬ (∀ (capacity : Nat) (s : RegState) (m : Nat), s.num_motors = capacity →
        ∀ i, (register_motor s m).1.motor i ≠ s.motor i → i < capacity) := by
  intro hclaim
  have h4 : (register_motor c3full 7).1.motor 4 ≠ c3full.motor 4 := by
    simp [register_motor, c3full]
  exact absurd (hclaim 4 c3full 7 rfl 4 h4) (by decide)

/-- Claim C3 (amended): `register_motor` appends the motor handle at index
`num_motors` and returns that 0-based densely assigned index; it performs no
capacity check, so a call made when the table is already full writes one slot
past the table instead of failing. -/
theorem c3_register_motor_amended (s : RegState) (m : Nat) :
    (register_motor s m).2 = s.num_motors ∧
    (register_motor s m).1.num_motors = s.num_motors + 1 ∧
    (register_motor s m).1.motor s.num_motors = some m ∧
    ∀ i, i ≠ s.num_motors → (register_motor s m).1.motor i = s.motor i := by
  refine ⟨rfl, rfl, by simp [register_motor], fun i hi => by simp [register_motor, hi]⟩

/-- Concrete instance of the amended C3 theorem: registering into the full
4-slot table returns index 4 and leaves unrelated slots unchanged. -/
theorem c3_witness :
    (register_motor c3full 7).2 = 4 ∧ (register_motor c3full 7).1.motor 9 = none := by
  exact ⟨(c3_register_motor_amended c3full 7).1,
    (c3_register_motor_amended c3full 7).2.2.2 9 (by decide)⟩

/-- Claim C4: on a tick where `current_tick` equals the motor's armed
`next_accel_event` and equals `accelerate_until`, the transition logic zeroes
`acceleration_change` (unless deceleration starts this very tick, which
overrides it), arms `next_accel_event = decelerate_after` when
`decelerate_after < total_move_ticks` and, unless deceleration starts on this
same tick, snaps `steps_per_tick` to `axis_ratio * maximum_rate / frequency`;
on a tick where `current_tick` equals the armed event and equals
`decelerate_after`, it sets `acceleration_change` to
`-deceleration_per_tick * axis_ratio`. -/
theorem c4_plateau_transition (bi : BlockInfo) (freq : ℚ) (ct : Nat) (t : TickInfo)
    (hnae : ct = t.next_accel_event) :
    (ct = bi.accelerate_until →
      ((phaseUpdate bi freq ct t).acceleration_change =
         if ct = bi.decelerate_after then -bi.deceleration_per_tick * t.axis_ratio
         else 0) ∧
      (bi.decelerate_after < bi.total_move_ticks →
        (phaseUpdate bi freq ct t).next_accel_event = bi.decelerate_after ∧
        (ct ≠ bi.decelerate_after →
          (phaseUpdate bi freq ct t).steps_per_tick =
            t.axis_ratio * bi.maximum_rate / freq))) ∧
    (ct = bi.decelerate_after →
      (phaseUpdate bi freq ct t).acceleration_change =
        -bi.deceleration_per_tick * t.axis_ratio) := by
  simp only [phaseUpdate]
  try dsimp only
  rw [if_pos hnae]
  split_ifs <;> simp_all

/-- Concrete instance of the C4 theorem: at tick 2 (= `next_accel_event` =
`accelerate_until`, with deceleration only at tick 5 < 10) the motor enters
the plateau: `acceleration_change` becomes 0, the next event is armed at
tick 5, and `steps_per_tick` is snapped to the plateau rate. -/
theorem c4_witness :
    (phaseUpdate c4bi 1 2 c4t).acceleration_change = 0 ∧
    (phaseUpdate c4bi 1 2 c4t).next_accel_event = 5 ∧
    (phaseUpdate c4bi 1 2 c4t).steps_per_tick = c4t.axis_ratio * c4bi.maximum_rate / 1 := by
  refine ⟨?_, ?_, ?_⟩
  · exact (((c4_plateau_transition c4bi 1 2 c4t rfl).1 rfl).1).trans (if_neg (by decide))
  · exact (((c4_plateau_transition c4bi 1 2 c4t rfl).1 rfl).2 (by decide)).1
  · exact (((c4_plateau_transition c4bi 1 2 c4t rfl).1 rfl).2 (by decide)).2 (by decide)

/-- Claim C5: `copy_block`'s per-motor conversion, for a motor with a nonzero
step count: `steps_to_move`, `axis_ratio`, the initial `steps_per_tick`,
`counter = 0` and `step_count = 0` are set as specified, and the starting
phase is classified in priority order (`accelerate_until ≠ 0`, then
`decelerate_after = 0`, then `decelerate_after ≠ total_move_ticks`, else pure
plateau), with `acceleration_change` scaled by `axis_ratio` in every case. -/
theorem c5_phase_classification (b : Block) (freq : ℚ) (steps : Nat) (t : TickInfo)
    (hpos : 0 < steps) :
    (copyMotor b freq steps t).steps_to_move = steps ∧
    (copyMotor b freq steps t).axis_ratio =
      (steps : ℚ) / (b.steps_event_count : ℚ) ∧
    (copyMotor b freq steps t).steps_per_tick =
      b.initial_rate * ((steps : ℚ) / (b.steps_event_count : ℚ)) / freq ∧
    (copyMotor b freq steps t).counter = 0 ∧
    (copyMotor b freq steps t).step_count = 0 ∧
    (b.accelerate_until ≠ 0 →
      (copyMotor b freq steps t).next_accel_event = b.accelerate_until ∧
      (copyMotor b freq steps t).acceleration_change =
        b.acceleration_per_tick * ((steps : ℚ) / (b.steps_event_count : ℚ))) ∧
    (b.accelerate_until = 0 → b.decelerate_after = 0 →
      (copyMotor b freq steps t).next_accel_event = b.total_move_ticks + 1 ∧
      (copyMotor b freq steps t).acceleration_change =
        -b.deceleration_per_tick * ((steps : ℚ) / (b.steps_event_count : ℚ))) ∧
    (b.accelerate_until = 0 → b.decelerate_after ≠ 0 →
      b.decelerate_after ≠ b.total_move_ticks →
      (copyMotor b freq steps t).next_accel_event = b.decelerate_after ∧
      (copyMotor b freq steps t).acceleration_change = 0) ∧
    (b.accelerate_until = 0 → b.decelerate_after ≠ 0 →
      b.decelerate_after = b.total_move_ticks →
      (copyMotor b freq steps t).next_accel_event = b.total_move_ticks + 1 ∧
      (copyMotor b freq steps t).acceleration_change = 0) := by
  have hne : steps ≠ 0 := Nat.pos_iff_ne_zero.mp hpos
  simp only [copyMotor, if_neg hne]
  try dsimp only
  simp only [one_div_mul_eq_div]
  split_ifs <;> simp_all

/-- Concrete instance of the C5 theorem: converting a 2-step motor of a
4-step reference block with an acceleration phase. -/
theorem c5_witness :
    (copyMotor c5b 1 2 default).steps_to_move = 2 ∧
    (copyMotor c5b 1 2 default).step_count = 0 ∧
    (copyMotor c5b 1 2 default).next_accel_event = 2 ∧
    (copyMotor c5b 1 2 default).acceleration_change =
      c5b.acceleration_per_tick * ((2 : ℚ) / (c5b.steps_event_count : ℚ)) := by
  refine ⟨(c5_phase_classification c5b 1 2 default (by decide)).1,
    (c5_phase_classification c5b 1 2 default (by decide)).2.2.2.2.1,
    ((c5_phase_classification c5b 1 2 default (by decide)).2.2.2.2.2.1 (by decide)).1,
    ((c5_phase_classification c5b 1 2 default (by decide)).2.2.2.2.2.1 (by decide)).2⟩

/-- One tick of a motor whose rate has decayed to zero or below and whose
armed accel event is not this tick: the rounding guard fires, one step is
emitted, the rate is clamped to 0 and everything else is untouched. -/
theorem tickMotor_decayed (bi : BlockInfo) (freq : ℚ) (ct : Nat) {t : TickInfo}
    (h0 : t.steps_to_move ≠ 0) (hct : ct ≠ t.next_accel_event)
    (hle : t.steps_per_tick + t.acceleration_change ≤ 0) :
    (tickMotor bi freq ct t).1 =
      { t with steps_per_tick := 0, counter := 0, step_count := t.step_count + 1,
               steps_to_move := if t.step_count + 1 = t.steps_to_move then 0
                                else t.steps_to_move } ∧
    (tickMotor bi freq ct t).2 = true := by
  have hphase : phaseUpdate bi freq ct t =
      { t with steps_per_tick := t.steps_per_tick + t.acceleration_change } := by
    simp only [phaseUpdate]
    rw [if_neg hct]
  rw [tickMotor_active bi freq ct h0, hphase]
  rw [roundingGuard, if_pos (by simpa using hle)]
  rw [stepPhase_of_step (by norm_num)]
  refine ⟨?_, rfl⟩
  simp

/-- Iterating the per-motor tick body on a decayed motor (`steps_per_tick`
and `acceleration_change` nonpositive, `next_accel_event = 0` so it never
fires on a positive tick) for exactly the missing number of steps finishes
the motor. -/
theorem runMotor_decayed_aux (bi : BlockInfo) (freq : ℚ) (k : Nat) :
    ∀ (ct0 : Nat) (t : TickInfo), 1 ≤ ct0 → t.next_accel_event = 0 →
      t.steps_per_tick ≤ 0 → t.acceleration_change ≤ 0 →
      t.step_count < t.steps_to_move → t.steps_to_move - t.step_count = k →
      (runMotor bi freq ct0 k t).steps_to_move = 0 ∧
      (runMotor bi freq ct0 k t).step_count = t.steps_to_move := by
  induction k with
  | zero =>
    intro ct0 t _ _ _ _ hlt hk
    exact absurd hk (by omega)
  | succ k ih =>
    intro ct0 t hct hnae hspt hacc hlt hk
    have h0 : t.steps_to_move ≠ 0 := by omega
    have hne : ct0 ≠ t.next_accel_event := by omega
    obtain ⟨heq, -⟩ := tickMotor_decayed bi freq ct0 h0 hne (add_nonpos hspt hacc)
    simp only [runMotor, heq]
    by_cases hdone : t.step_count + 1 = t.steps_to_move
    · have hk0 : k = 0 := by omega
      subst hk0
      simp only [if_pos hdone, runMotor]
      exact ⟨trivial, hdone⟩
    · rw [if_neg hdone]
      exact ih (ct0 + 1) _ (by omega) hnae le_rfl hacc (by simp; omega) (by simp; omega)

/-- Claim C6: on any tick where an active motor's `steps_per_tick`, after the
acceleration update and phase transitions, is nonpositive, the rounding
guard forces `counter` to 1 and clamps `steps_per_tick` to 0, so a step fires
on that very tick (leaving `counter = 0`); consequently a motor whose rate
has decayed to zero or below (nonpositive rate and acceleration, no further
phase event) emits one step per tick until `step_count` reaches
`steps_to_move` — it finishes instead of stalling, and no error is
reported. -/
theorem c6_rounding_guard_forces_final_step :
    (∀ (bi : BlockInfo) (freq : ℚ) (ct : Nat) (t : TickInfo),
      t.steps_to_move ≠ 0 → (phaseUpdate bi freq ct t).steps_per_tick ≤ 0 →
      (tickMotor bi freq ct t).2 = true ∧
      (tickMotor bi freq ct t).1.step_count = t.step_count + 1 ∧
      (tickMotor bi freq ct t).1.steps_per_tick = 0 ∧
      (tickMotor bi freq ct t).1.counter = 0) ∧
    (∀ (bi : BlockInfo) (freq : ℚ) (ct0 : Nat) (t : TickInfo),
      1 ≤ ct0 → t.next_accel_event = 0 → t.steps_per_tick ≤ 0 →
      t.acceleration_change ≤ 0 → t.step_count < t.steps_to_move →
      (runMotor bi freq ct0 (t.steps_to_move - t.step_count) t).steps_to_move = 0 ∧
      (runMotor bi freq ct0 (t.steps_to_move - t.step_count) t).step_count =
        t.steps_to_move) := by
  constructor
  · intro bi freq ct t h0 hle
    rw [tickMotor_active bi freq ct h0]
    rw [roundingGuard, if_pos hle]
    rw [stepPhase_of_step (by norm_num)]
    refine ⟨rfl, ?_, rfl, by norm_num⟩
    simp [phaseUpdate_step_count]
  · intro bi freq ct0 t hct hnae hspt hacc hlt
    exact runMotor_decayed_aux bi freq (t.steps_to_move - t.step_count) ct0 t
      hct hnae hspt hacc hlt rfl

/-- Concrete instance of the C6 theorem: a motor at rate 0 with acceleration
−1 steps on the next tick via the guard, and three further ticks bring its
`step_count` from 2 to its commanded 5, finishing the motor. -/
theorem c6_witness :
    (tickMotor default 1 3 c6t).2 = true ∧
    (tickMotor default 1 3 c6t).1.step_count = c6t.step_count + 1 ∧
    (runMotor default 1 1 3 c6t).steps_to_move = 0 ∧
    (runMotor default 1 1 3 c6t).step_count = 5 := by
  have hg := c6_rounding_guard_forces_final_step.1 default 1 3 c6t (by decide)
    (by norm_num [phaseUpdate, c6t])
  have hr := c6_rounding_guard_forces_final_step.2 default 1 1 c6t (by decide) rfl
    (by norm_num [c6t]) (by norm_num [c6t]) (by decide)
  exact ⟨hg.1, hg.2.1, hr.1, hr.2⟩

/-- Claim C10: on any single tick a motor's `step_count` increases by at most
one (so `step()` is invoked at most once per motor per tick); when a step
fires the counter is decremented by exactly 1 relative to its accumulated
value, carrying the residual fraction forward, and when no step fires the
accumulated counter is kept unchanged. -/
theorem c10_at_most_one_step_per_tick (bi : BlockInfo) (freq : ℚ) (ct : Nat)
    (t : TickInfo) :
    (tickMotor bi freq ct t).1.step_count ≤ t.step_count + 1 ∧
    ((tickMotor bi freq ct t).2 = true →
      (tickMotor bi freq ct t).1.step_count = t.step_count + 1 ∧
      (tickMotor bi freq ct t).1.counter =
        (roundingGuard (phaseUpdate bi freq ct t)).counter +
          (roundingGuard (phaseUpdate bi freq ct t)).steps_per_tick - 1) ∧
    ((tickMotor bi freq ct t).2 = false →
      (tickMotor bi freq ct t).1.step_count = t.step_count ∧
      (tickMotor bi freq ct t).1.counter =
        if t.steps_to_move = 0 then t.counter
        else (roundingGuard (phaseUpdate bi freq ct t)).counter +
          (roundingGuard (phaseUpdate bi freq ct t)).steps_per_tick) := by
  by_cases h0 : t.steps_to_move = 0
  · rw [tickMotor_inactive bi freq ct h0]
    exact ⟨Nat.le_succ _, fun hc => absurd hc (by simp), fun _ => ⟨rfl, by rw [if_pos h0]⟩⟩
  · rw [tickMotor_active bi freq ct h0]
    by_cases hc : 1 ≤ (roundingGuard (phaseUpdate bi freq ct t)).counter +
        (roundingGuard (phaseUpdate bi freq ct t)).steps_per_tick
    · rw [stepPhase_of_step hc]
      refine ⟨?_, fun _ => ⟨?_, rfl⟩, fun hfalse => absurd hfalse (by simp)⟩
      · simp [roundingGuard_step_count, phaseUpdate_step_count]
      · simp [roundingGuard_step_count, phaseUpdate_step_count]
    · rw [stepPhase_of_no_step hc]
      refine ⟨?_, fun hfalse => absurd hfalse (by simp), fun _ => ⟨?_, by rw [if_neg h0]⟩⟩
      · simp [roundingGuard_step_count, phaseUpdate_step_count, Nat.le_succ]
      · simp [roundingGuard_step_count, phaseUpdate_step_count]

/-- Concrete instance of the C10 theorem: a motor at exactly stepping rate
fires one step, taking its `step_count` from 0 to 1 and leaving its counter
at the accumulated value minus 1. -/
theorem c10_witness :
    (tickMotor default 1 7 c10t).2 = true ∧
    (tickMotor default 1 7 c10t).1.step_count = c10t.step_count + 1 := by
  have hs : (tickMotor default 1 7 c10t).2 = true := by
    norm_num [tickMotor, phaseUpdate, roundingGuard, stepPhase, c10t]
  exact ⟨hs, ((c10_at_most_one_step_per_tick default 1 7 c10t).2.1 hs).1⟩

/-- A tick over motors that are all inactive leaves the `tick_info` table
unchanged entry by entry. -/
theorem map_tickMotor_of_all_done (bi : BlockInfo) (freq : ℚ) (ct : Nat)
    {l : List TickInfo} (h : ∀ t ∈ l, t.steps_to_move = 0) :
    l.map (fun t => (tickMotor bi freq ct t).1) = l := by
  have : ∀ t ∈ l, (fun t => (tickMotor bi freq ct t).1) t = id t := by
    intro t ht
    simp [tickMotor_inactive bi freq ct (h t ht)]
  rw [List.map_congr_left this, List.map_id]

/-- Claim C7: if the mailbox holds a pending block on the tick at which the
current block finishes (all motors inactive at entry, so `still_moving`
computes false), then within that same tick the handler resets
`current_tick` to 0, converts and activates the pending block (its
`block_info` and `tick_info` are the `copy_block` conversion and
`move_issued` stays true), clears the mailbox slot, and raises the
completion signal — so the first tick of the new block is the very next
tick. -/
theorem c7_no_idle_gap (s : State) (b : Block) (hmi : s.move_issued = true)
    (hnb : s.next_block = some b)
    (hidle : ∀ t ∈ s.tick_info, t.steps_to_move = 0) :
    (TIMER0_IRQHandler s).1.current_tick = 0 ∧
    (TIMER0_IRQHandler s).1.next_block = none ∧
    (TIMER0_IRQHandler s).1.move_issued = true ∧
    (TIMER0_IRQHandler s).1.tick_info =
      List.zipWith (copyMotor b s.frequency) b.steps s.tick_info ∧
    (TIMER0_IRQHandler s).1.block_info =
      { accelerate_until := b.accelerate_until, decelerate_after := b.decelerate_after,
        maximum_rate := b.maximum_rate, deceleration_per_tick := b.deceleration_per_tick,
        total_move_ticks := b.total_move_ticks } ∧
    (TIMER0_IRQHandler s).2.pendsv_raised = true := by
  have hmv : ¬ ((s.tick_info.any fun t => t.steps_to_move != 0) = true) := by
    simp only [List.any_eq_true, bne_iff_ne, ne_eq, not_exists, not_and, not_not]
    exact hidle
  unfold TIMER0_IRQHandler
  rw [if_neg (by simp [hmi])]
  dsimp only
  rw [if_neg hmv, hnb]
  try dsimp only
  rw [List.map_map]
  have hmap : s.tick_info.map (Prod.fst ∘ fun t =>
      tickMotor s.block_info s.frequency (s.current_tick + 1) t) = s.tick_info := by
    have := map_tickMotor_of_all_done s.block_info s.frequency (s.current_tick + 1) hidle
    simpa [Function.comp] using this
  rw [hmap]
  exact ⟨rfl, rfl, rfl, rfl, rfl, rfl⟩

/-- Concrete instance of the C7 theorem: with block `c7b` pending when the
current block finishes, the same tick resets the counter, installs `c7b` and
empties the mailbox. -/
theorem c7_witness :
    (TIMER0_IRQHandler c7state).1.current_tick = 0 ∧
    (TIMER0_IRQHandler c7state).1.next_block = none ∧
    (TIMER0_IRQHandler c7state).1.move_issued = true ∧
    (TIMER0_IRQHandler c7state).2.pendsv_raised = true := by
  have h := c7_no_idle_gap c7state c7b rfl rfl (by decide)
  exact ⟨h.1, h.2.1, h.2.2.1, h.2.2.2.2.2⟩

/-! Preservation of the step-count invariant -/

theorem copyMotor_steps_to_move_and_count (b : Block) (freq : ℚ) (steps : Nat)
    (t : TickInfo) (h : steps ≠ 0) :
    (copyMotor b freq steps t).steps_to_move = steps ∧
    (copyMotor b freq steps t).step_count = 0 := by
  simp only [copyMotor, if_neg h]
  try dsimp only
  split_ifs <;> exact ⟨rfl, rfl⟩

/-- Indexing a mapped `tick_info` table: the per-motor update commutes with
`getD` at in-range indices. -/
theorem map_getD_tickMotor (bi : BlockInfo) (freq : ℚ) (ct : Nat)
    (l : List TickInfo) (i : Nat) (h : i < l.length) :
    (l.map (fun t => (tickMotor bi freq ct t).1)).getD i default =
      (tickMotor bi freq ct (l.getD i default)).1 := by
  rw [List.getD_eq_getElem _ _ (show i < (l.map fun t =>
      (tickMotor bi freq ct t).1).length by simpa using h),
    List.getElem_map, List.getD_eq_getElem _ _ h]

theorem tickMotor_motorInv {n : Nat} (bi : BlockInfo) (freq : ℚ) (ct : Nat)
    {t : TickInfo} (hn : 0 < n) (h : MotorInv n t) :
    MotorInv n (tickMotor bi freq ct t).1 := by
  by_cases h0 : t.steps_to_move = 0
  · rw [tickMotor_inactive bi freq ct h0]; exact h
  · rw [tickMotor_active bi freq ct h0]
    have hstm : (roundingGuard (phaseUpdate bi freq ct t)).steps_to_move =
        t.steps_to_move := by
      rw [roundingGuard_steps_to_move, phaseUpdate_steps_to_move]
    have hsc : (roundingGuard (phaseUpdate bi freq ct t)).step_count =
        t.step_count := by
      rw [roundingGuard_step_count, phaseUpdate_step_count]
    rcases h with ⟨ha, hb⟩ | ⟨ha, hb⟩
    · by_cases hc : 1 ≤ (roundingGuard (phaseUpdate bi freq ct t)).counter +
          (roundingGuard (phaseUpdate bi freq ct t)).steps_per_tick
      · rw [stepPhase_of_step hc]
        unfold MotorInv
        dsimp only
        rw [hstm, hsc, ha]
        by_cases hd : t.step_count + 1 = n
        · right; exact ⟨by rw [if_pos hd], hd⟩
        · left; exact ⟨by rw [if_neg hd], by omega⟩
      · rw [stepPhase_of_no_step hc]
        unfold MotorInv
        dsimp only
        rw [hstm, hsc]
        left; exact ⟨ha, hb⟩
    · exact absurd ha h0

theorem copy_block_stateInv {s : State} {b : Block}
    (hlen : b.steps.length = s.tick_info.length) (hnb : s.next_block = none) :
    StateInv b.steps (copy_block s b) := by
  refine ⟨by simp [copy_block, List.length_zipWith]; omega, hnb, ?_⟩
  intro i hi hpos
  have hiz : i < (List.zipWith (copyMotor b s.frequency) b.steps s.tick_info).length := by
    simp only [List.length_zipWith]; omega
  have hne : b.steps.getD i 0 ≠ 0 := by omega
  simp only [copy_block]
  rw [List.getD_eq_getElem _ _ hiz, List.getElem_zipWith, ← List.getD_eq_getElem b.steps 0 hi]
  left
  refine ⟨(copyMotor_steps_to_move_and_count _ _ _ _ hne).1, ?_⟩
  rw [(copyMotor_steps_to_move_and_count _ _ _ _ hne).2]
  omega

theorem TIMER0_stateInv {L : List Nat} {s : State} (h : StateInv L s) :
    StateInv L (TIMER0_IRQHandler s).1 := by
  obtain ⟨hlen, hnb, hinv⟩ := h
  by_cases hmi : s.move_issued = false
  · rw [TIMER0_not_issued hmi]; exact ⟨hlen, hnb, hinv⟩
  · have hmi' : s.move_issued = true := by revert hmi; cases s.move_issued <;> simp
    refine ⟨?_, TIMER0_next_block_of_none hnb, ?_⟩
    · rw [TIMER0_tick_info_of_none hmi' hnb, List.length_map]; exact hlen
    · intro i hi hpos
      have hi' : i < s.tick_info.length := by omega
      rw [TIMER0_tick_info_of_none hmi' hnb, map_getD_tickMotor _ _ _ _ _ hi']
      exact tickMotor_motorInv _ _ _ hpos (hinv i hi hpos)

theorem runTicks_stateInv {L : List Nat} :
    ∀ (n : Nat) (s : State), StateInv L s → StateInv L (runTicks s n) := by
  intro n
  induction n with
  | zero => intro s h; exact h
  | succ n ih =>
    intro s h
    simp only [runTicks]
    exact ih _ (TIMER0_stateInv h)

/-- Claim C1: for any block with `accelerate_until ≤ decelerate_after ≤
total_move_ticks` converted by `copy_block` into a ticker with an empty
mailbox, and any run of the tick handler after which every motor is inactive
(the tick on which `still_moving` becomes false), every motor commanded a
nonzero number of steps has emitted exactly that number: its `step_count`
equals the block's `steps[m]`, for any `steps_event_count`, axis ratios and
rate parameters. -/
theorem c1_step_count_conservation (s0 : State) (b : Block) (n : Nat)
    (hau : b.accelerate_until ≤ b.decelerate_after)
    (hda : b.decelerate_after ≤ b.total_move_ticks)
    (hnb : s0.next_block = none)
    (hlen : b.steps.length = s0.tick_info.length)
    (hfin : ∀ t ∈ (runTicks (copy_block s0 b) n).tick_info, t.steps_to_move = 0)
    (i : Nat) (hi : i < b.steps.length) (hpos : 0 < b.steps.getD i 0) :
    ((runTicks (copy_block s0 b) n).tick_info.getD i default).step_count =
      b.steps.getD i 0 := by
  obtain ⟨hl, -, hall⟩ :=
    runTicks_stateInv n (copy_block s0 b) (copy_block_stateInv hlen hnb)
  have hm := hall i hi hpos
  have hi2 : i < (runTicks (copy_block s0 b) n).tick_info.length := by omega
  have hmem : (runTicks (copy_block s0 b) n).tick_info.getD i default ∈
      (runTicks (copy_block s0 b) n).tick_info := by
    rw [List.getD_eq_getElem _ _ hi2]
    exact List.getElem_mem hi2
  have hstm := hfin _ hmem
  rcases hm with ⟨ha, -⟩ | ⟨-, hb⟩
  · rw [hstm] at ha; omega
  · exact hb

/-- Concrete instance of the C1 theorem: the 2-step plateau block `c1b`
finishes after 3 ticks with `step_count = steps[0] = 2`. -/
theorem c1_witness :
    (∀ t ∈ (runTicks (copy_block c1s0 c1b) 3).tick_info, t.steps_to_move = 0) ∧
    ((runTicks (copy_block c1s0 c1b) 3).tick_info.getD 0 default).step_count =
      c1b.steps.getD 0 0 := by
  have hfin : ∀ t ∈ (runTicks (copy_block c1s0 c1b) 3).tick_info,
      t.steps_to_move = 0 := by
    norm_num [runTicks, TIMER0_IRQHandler, copy_block, copyMotor, tickMotor,
      phaseUpdate, roundingGuard, stepPhase, signalMoveFinished, c1b, c1s0]
  exact ⟨hfin, c1_step_count_conservation c1s0 c1b 3 (by decide) (by decide) rfl rfl
    hfin 0 (by decide) (by decide)⟩

end Smoothie
